import Mathlib

/-!
Verification development for the ulta-claw secure agent architecture:
the namespaced store with per-role ACLs, the task broker protocol layered
on it, the health probe / aggregator rollup, and the hardened command
table of the store.  The store, broker and aggregator implementations are
not shipped in this repository snapshot (only their documentation, ACL
table, deployment flow and hardening configuration are); the definitions
below are modelled from the specification and from those in-repo
documents, as noted on each definition.
-/

namespace UltaClaw

/-- Tri-state component status, from the frontend type
ComponentStatus = healthy | degraded | unhealthy (cli/frontend, part_003). -/
inductive Status
  | healthy
  | degraded
  | unhealthy
deriving DecidableEq, Repr, Fintype

/-- Modelled from the spec: the health aggregator rollup rule (missing
aggregator implementation).  Pessimistic precedence: if any member is
unhealthy, overall is unhealthy; else if any member is degraded, overall
is degraded; else overall is healthy. -/
def rollup (xs : List Status) : Status :=
  if Status.unhealthy ∈ xs then Status.unhealthy
  else if Status.degraded ∈ xs then Status.degraded
  else Status.healthy

theorem rollup_unhealthy_of_mem (xs : List Status) (h : Status.unhealthy ∈ xs) :
    rollup xs = Status.unhealthy := by
  simp [rollup, h]

/-- Claim C3: for every non-empty list of member statuses the rollup is
the pure precedence function (unhealthy dominates, then degraded, else
healthy), and the three concrete examples of the spec hold. -/
theorem rollup_spec (xs : List Status) (h : xs ≠ []) :
    (rollup xs = Status.unhealthy ↔ Status.unhealthy ∈ xs) ∧
    (rollup xs = Status.degraded ↔
      (Status.unhealthy ∉ xs ∧ Status.degraded ∈ xs)) ∧
    (rollup xs = Status.healthy ↔ ∀ s ∈ xs, s = Status.healthy) ∧
    rollup [Status.healthy, Status.degraded, Status.healthy] = Status.degraded ∧
    rollup [Status.unhealthy, Status.healthy, Status.degraded] = Status.unhealthy ∧
    rollup [Status.healthy, Status.healthy] = Status.healthy := by
  refine ⟨?_, ?_, ?_, by decide, by decide, by decide⟩
  · unfold rollup
    split
    · simp_all
    · split <;> simp_all
  · unfold rollup
    split
    · simp_all
    · split <;> simp_all
  · unfold rollup
    split
    · constructor
      · intro hc; cases hc
      · intro hall
        rename_i hu
        exact absurd (hall _ hu) (by decide)
    · split
      · constructor
        · intro hc; cases hc
        · intro hall
          rename_i hd
          exact absurd (hall _ hd) (by decide)
      · rename_i hu hd
        constructor
        · intro _ s hs
          cases s with
          | healthy => rfl
          | degraded => exact absurd hs hd
          | unhealthy => exact absurd hs hu
        · intro _; rfl

theorem rollup_spec_witness :
    ([Status.healthy, Status.degraded] ≠ ([] : List Status)) ∧
    ((rollup [Status.healthy, Status.degraded] = Status.unhealthy ↔
        Status.unhealthy ∈ [Status.healthy, Status.degraded]) ∧
      (rollup [Status.healthy, Status.degraded] = Status.degraded ↔
        (Status.unhealthy ∉ [Status.healthy, Status.degraded] ∧
          Status.degraded ∈ [Status.healthy, Status.degraded])) ∧
      (rollup [Status.healthy, Status.degraded] = Status.healthy ↔
        ∀ s ∈ [Status.healthy, Status.degraded], s = Status.healthy) ∧
      rollup [Status.healthy, Status.degraded, Status.healthy] = Status.degraded ∧
      rollup [Status.unhealthy, Status.healthy, Status.degraded] = Status.unhealthy ∧
      rollup [Status.healthy, Status.healthy] = Status.healthy) :=
  ⟨by decide, rollup_spec [Status.healthy, Status.degraded] (by decide)⟩

/-- Client identities of the store, from the User Types table of the
Redis configuration document (part_006): admin, gateway, agent, cli,
litellm. -/
inductive Role
  | admin
  | gateway
  | agent
  | cli
  | litellm
deriving DecidableEq, Repr, Fintype

/-- Key-prefix families of the store, from the Key Patterns section of
part_006: config, agent (including the agent:queue key), task, result,
litellm. -/
inductive Pfx
  | config
  | agentNs
  | task
  | result
  | litellmNs
deriving DecidableEq, Repr, Fintype

/-- Operations an identity may perform on a key prefix.  read and write
are the data-plane operations; the last four are the destructive or
administrative operations named by the spec (bulk-delete, full-flush,
runtime reconfiguration, shutdown). -/
inductive Op
  | read
  | write
  | bulkDelete
  | flush
  | reconfig
  | shutdown
deriving DecidableEq, Repr, Fintype

/-- Data-plane operations. -/
def Op.isRW : Op → Bool
  | .read => true
  | .write => true
  | _ => false

/-- Destructive or administrative operations. -/
def Op.isAdminOp (o : Op) : Bool := !o.isRW

/-- Modelled from the spec: the per-role allow-list (missing users.acl
file), transcribed from the User Types table of part_006, deny by
default.  admin has full access; gateway reads config; agent has its
agent, task and result prefixes (write per the table, and read because
the Task Creation Flow of part_000 has the agent pop agent:queue and
fetch task data); cli reads and writes config, agent, task and result;
litellm reads its litellm prefix. -/
def grants (r : Role) (p : Pfx) (o : Op) : Bool :=
  match r, p with
  | .admin, _ => true
  | .gateway, .config => o = Op.read
  | .agent, .agentNs => o.isRW
  | .agent, .task => o.isRW
  | .agent, .result => o.isRW
  | .cli, .config => o.isRW
  | .cli, .agentNs => o.isRW
  | .cli, .task => o.isRW
  | .cli, .result => o.isRW
  | .litellm, .litellmNs => o = Op.read
  | _, _ => false

/-- A store key: its prefix family together with the rest of the key
(for a key such as task:42 the prefix is task and the rest is 42). -/
abbrev Key := Pfx × String

/-- State of the namespaced store: a key/value table and the list
(queue) contents per key.  Queues are FIFO: push appends at the tail,
pop removes the head. -/
structure Store where
  kv : Key → Option String
  queues : Key → List String

/-- Error of a store operation: the access policy is evaluated first and
denial fails the call. -/
inductive StoreErr
  | accessDenied
deriving DecidableEq, Repr

/-- Outcome of a blocking pop: an entry, or a timeout distinct from an
error. -/
inductive PopOutcome
  | popped (v : String)
  | timedOut
deriving DecidableEq, Repr

/-- Pointwise update of a finite map. -/
def upd {α : Type} [DecidableEq α] {β : Type} (f : α → Option β) (k : α) (v : β) :
    α → Option β :=
  fun k2 => if k2 = k then some v else f k2

theorem upd_same {α : Type} [DecidableEq α] {β : Type} (f : α → Option β) (k : α) (v : β) :
    upd f k v k = some v := by simp [upd]

theorem upd_other {α : Type} [DecidableEq α] {β : Type} (f : α → Option β) (k k2 : α)
    (v : β) (h : k2 ≠ k) : upd f k v k2 = f k2 := by simp [upd, h]

/-- Modelled from the spec: store read (missing store implementation).
Evaluates the access policy first; on denial fails with AccessDenied and
performs no mutation. -/
def sget (i : Role) (σ : Store) (k : Key) : Except StoreErr (Option String) × Store :=
  if grants i k.1 Op.read then (Except.ok (σ.kv k), σ)
  else (Except.error StoreErr.accessDenied, σ)

/-- Modelled from the spec: store write (missing store implementation). -/
def sset (i : Role) (σ : Store) (k : Key) (v : String) : Except StoreErr Unit × Store :=
  if grants i k.1 Op.write then
    (Except.ok (), { σ with kv := upd σ.kv k v })
  else (Except.error StoreErr.accessDenied, σ)

/-- Modelled from the spec: queue push (missing store implementation);
appends at the tail of the FIFO queue held at the key. -/
def pushQueue (i : Role) (σ : Store) (k : Key) (v : String) :
    Except StoreErr Unit × Store :=
  if grants i k.1 Op.write then
    (Except.ok (),
      { σ with queues := fun k2 => if k2 = k then σ.queues k ++ [v] else σ.queues k2 })
  else (Except.error StoreErr.accessDenied, σ)

/-- Modelled from the spec: blocking pop (missing store implementation);
pop mutates the queue, so it is a write-class operation.  An empty queue
yields the timeout outcome, distinct from an error. -/
def popQueueBlocking (i : Role) (σ : Store) (k : Key) (timeoutMs : Nat) :
    Except StoreErr PopOutcome × Store :=
  if grants i k.1 Op.write then
    match σ.queues k with
    | [] => (Except.ok PopOutcome.timedOut, σ)
    | v :: rest =>
      (Except.ok (PopOutcome.popped v),
        { σ with queues := fun k2 => if k2 = k then rest else σ.queues k2 })
  else (Except.error StoreErr.accessDenied, σ)

/-- Modelled from the spec: queue length query (missing store
implementation). -/
def queueLength (i : Role) (σ : Store) (k : Key) : Except StoreErr Nat × Store :=
  if grants i k.1 Op.read then (Except.ok (σ.queues k).length, σ)
  else (Except.error StoreErr.accessDenied, σ)

/-- Claim C2: for an identity with no grant on the prefix of key k,
every one of the five store operations fails with AccessDenied and
returns the store unchanged. -/
theorem store_denies_outside_grants (i : Role) (σ : Store) (k : Key)
    (hr : grants i k.1 Op.read = false) (hw : grants i k.1 Op.write = false) :
    sget i σ k = (Except.error StoreErr.accessDenied, σ) ∧
    (∀ v, sset i σ k v = (Except.error StoreErr.accessDenied, σ)) ∧
    (∀ v, pushQueue i σ k v = (Except.error StoreErr.accessDenied, σ)) ∧
    (∀ t, popQueueBlocking i σ k t = (Except.error StoreErr.accessDenied, σ)) ∧
    queueLength i σ k = (Except.error StoreErr.accessDenied, σ) := by
  refine ⟨?_, ?_, ?_, ?_, ?_⟩ <;>
    simp [sget, sset, pushQueue, popQueueBlocking, queueLength, hr, hw]

/-- The empty store. -/
def emptyStore : Store := ⟨fun _ => none, fun _ => []⟩

theorem store_denies_outside_grants_witness :
    (grants Role.gateway Pfx.task Op.read = false) ∧
    (grants Role.gateway Pfx.task Op.write = false) ∧
    (sget Role.gateway emptyStore (Pfx.task, "42") =
      (Except.error StoreErr.accessDenied, emptyStore) ∧
    (∀ v, sset Role.gateway emptyStore (Pfx.task, "42") v =
      (Except.error StoreErr.accessDenied, emptyStore)) ∧
    (∀ v, pushQueue Role.gateway emptyStore (Pfx.task, "42") v =
      (Except.error StoreErr.accessDenied, emptyStore)) ∧
    (∀ t, popQueueBlocking Role.gateway emptyStore (Pfx.task, "42") t =
      (Except.error StoreErr.accessDenied, emptyStore)) ∧
    queueLength Role.gateway emptyStore (Pfx.task, "42") =
      (Except.error StoreErr.accessDenied, emptyStore)) :=
  ⟨by decide, by decide,
    store_denies_outside_grants Role.gateway emptyStore (Pfx.task, "42")
      (by decide) (by decide)⟩

/-- Claim C8: no destructive or administrative operation is granted to
any of the non-manager roles (gateway, agent, litellm) on any prefix;
hence the union of the non-manager grant sets permits none of them.  The
policy is the static table above, loaded once and immutable, so this
holds for the whole deployment lifetime. -/
theorem nonmanager_no_admin_ops (p : Pfx) (o : Op) (h : o.isAdminOp = true) :
    grants Role.gateway p o = false ∧
    grants Role.agent p o = false ∧
    grants Role.litellm p o = false := by
  revert h
  cases p <;> cases o <;> decide

theorem nonmanager_no_admin_ops_witness :
    (Op.flush.isAdminOp = true) ∧
    (grants Role.gateway Pfx.config Op.flush = false ∧
      grants Role.agent Pfx.config Op.flush = false ∧
      grants Role.litellm Pfx.config Op.flush = false) :=
  ⟨by decide, nonmanager_no_admin_ops Pfx.config Op.flush (by decide)⟩

/-- Counterexample to claim C9 as stated: the cli role is not the
consumer (agent) identity, yet its grant set permits writing the task
prefix (and likewise the result prefix), per the User Types table of
part_006. -/
theorem cli_writes_task_counterexample :
    Role.cli ≠ Role.agent ∧
    grants Role.cli Pfx.task Op.write = true ∧
    grants Role.cli Pfx.result Op.write = true := by
  decide

/-- Claim C9 (amended): the only roles whose grant sets permit writing
the task or result prefixes are the consumer (agent) and the management
identities (cli and admin); in particular gateway and litellm cannot. -/
theorem writes_task_result_only_privileged (r : Role) (p : Pfx)
    (hp : p = Pfx.task ∨ p = Pfx.result) (hw : grants r p Op.write = true) :
    r = Role.agent ∨ r = Role.cli ∨ r = Role.admin := by
  revert hw
  cases r <;> rcases hp with rfl | rfl <;> decide

theorem writes_task_result_only_privileged_witness :
    (Pfx.task = Pfx.task ∨ Pfx.task = Pfx.result) ∧
    (grants Role.cli Pfx.task Op.write = true) ∧
    (Role.cli = Role.agent ∨ Role.cli = Role.cli ∨ Role.cli = Role.admin) :=
  ⟨Or.inl rfl, by decide,
    writes_task_result_only_privileged Role.cli Pfx.task (Or.inl rfl) (by decide)⟩

/-- A concrete store command as received by the command dispatcher:
the data-plane commands used by the system (GET, SET, LPUSH, BRPOP,
LLEN) and the four dangerous commands renamed away by the hardening
configuration of part_002 (FLUSHDB, FLUSHALL, CONFIG, SHUTDOWN). -/
inductive Cmd
  | get (k : Key)
  | set (k : Key) (v : String)
  | lpush (k : Key) (v : String)
  | brpop (k : Key) (t : Nat)
  | llen (k : Key)
  | flushdb
  | flushall
  | configSet (param value : String)
  | shutdown

/-- Commands renamed to the empty string by the hardening configuration
(rename-command FLUSHDB "", FLUSHALL "", CONFIG "", SHUTDOWN "" in
part_002): their names no longer resolve to any handler. -/
def renamedAway : Cmd → Bool
  | .flushdb => true
  | .flushall => true
  | .configSet _ _ => true
  | .shutdown => true
  | _ => false

/-- Dispatcher-level outcome of a command: accepted and executed,
denied by the per-identity ACL, or unavailable because the command name
was renamed away and is unknown to the server. -/
inductive CmdResult
  | accepted
  | deniedAcl
  | unavailable
deriving DecidableEq, Repr

/-- Collapse a store-operation outcome to the dispatcher-level
outcome. -/
def toCmdResult {α : Type} : Except StoreErr α × Store → CmdResult × Store
  | (Except.ok _, σ) => (CmdResult.accepted, σ)
  | (Except.error StoreErr.accessDenied, σ) => (CmdResult.deniedAcl, σ)

/-- Modelled from the spec and the hardening configuration of part_002
(missing redis.conf): command dispatch.  A renamed-away command resolves
to no handler at all, before any ACL evaluation and for every identity;
the remaining commands are routed to the access-checked store
operations. -/
def execCmd (i : Role) (σ : Store) : Cmd → CmdResult × Store
  | .get k => toCmdResult (sget i σ k)
  | .set k v => toCmdResult (sset i σ k v)
  | .lpush k v => toCmdResult (pushQueue i σ k v)
  | .brpop k t => toCmdResult (popQueueBlocking i σ k t)
  | .llen k => toCmdResult (queueLength i σ k)
  | .flushdb => (CmdResult.unavailable, σ)
  | .flushall => (CmdResult.unavailable, σ)
  | .configSet _ _ => (CmdResult.unavailable, σ)
  | .shutdown => (CmdResult.unavailable, σ)

/-- Claim C10: every renamed-away command (FLUSHDB, FLUSHALL, CONFIG,
SHUTDOWN) is unavailable to every identity, the admin role included,
leaving the store untouched; and that outcome is unavailability of the
command, not an ACL denial. -/
theorem renamed_commands_unavailable (i : Role) (σ : Store) (c : Cmd)
    (h : renamedAway c = true) :
    execCmd i σ c = (CmdResult.unavailable, σ) ∧
    CmdResult.unavailable ≠ CmdResult.deniedAcl := by
  refine ⟨?_, by decide⟩
  cases c <;> simp_all [renamedAway, execCmd]

theorem renamed_commands_unavailable_witness :
    (renamedAway Cmd.shutdown = true) ∧
    (execCmd Role.admin emptyStore Cmd.shutdown = (CmdResult.unavailable, emptyStore) ∧
      CmdResult.unavailable ≠ CmdResult.deniedAcl) :=
  ⟨rfl, renamed_commands_unavailable Role.admin emptyStore Cmd.shutdown rfl⟩

/-- Task lifecycle status, from the data model: queued, in-progress,
completed, failed. -/
inductive TaskStatus
  | queued
  | inProgress
  | completed
  | failed
deriving DecidableEq, Repr, Fintype

/-- Terminal statuses. -/
def TaskStatus.isTerminal : TaskStatus → Bool
  | .completed => true
  | .failed => true
  | _ => false

/-- A task record: opaque payload plus lifecycle status.  Task
identifiers are modelled as natural numbers (the real identifiers are
opaque globally unique strings). -/
structure TaskRec where
  payload : String
  status : TaskStatus
deriving DecidableEq, Repr

/-- Broker-facing state, the projection of the store the broker
protocol uses: the task records (keys task:id), the result records
(keys result:id) and the single work queue (key agent:queue), per the
Task Creation Flow of part_000. -/
structure BrokerSt where
  tasks : Nat → Option TaskRec
  results : Nat → Option String
  queue : List Nat

/-- Broker operation errors. -/
inductive BrokerErr
  | notFound
  | alreadyTerminal
deriving DecidableEq, Repr

/-- Modelled from the spec: complete(taskId, output) (missing agent
implementation).  Writes the result record and transitions the task to
the terminal status completed; fails with AlreadyTerminal when the task
is already terminal, leaving everything unchanged; fails with NotFound
on an unknown identifier. -/
def complete (σ : BrokerSt) (id : Nat) (out : String) : Except BrokerErr BrokerSt :=
  match σ.tasks id with
  | none => Except.error BrokerErr.notFound
  | some r =>
    if r.status.isTerminal then Except.error BrokerErr.alreadyTerminal
    else Except.ok
      { σ with tasks := upd σ.tasks id ⟨r.payload, TaskStatus.completed⟩,
               results := upd σ.results id out }

/-- Modelled from the spec: fail(taskId, errorDetail) (missing agent
implementation).  Same guard as complete, with terminal status failed
and the error detail stored in the result record. -/
def failTask (σ : BrokerSt) (id : Nat) (errDetail : String) : Except BrokerErr BrokerSt :=
  match σ.tasks id with
  | none => Except.error BrokerErr.notFound
  | some r =>
    if r.status.isTerminal then Except.error BrokerErr.alreadyTerminal
    else Except.ok
      { σ with tasks := upd σ.tasks id ⟨r.payload, TaskStatus.failed⟩,
               results := upd σ.results id errDetail }

/-- Outcome of fetchResult: the result record content, Pending (a
non-error), or NotFound. -/
inductive FetchOutcome
  | notFound
  | pending
  | result (out : String)
deriving DecidableEq, Repr

/-- Modelled from the spec: fetchResult(taskId) (missing gateway
implementation).  Reads the result record at result:id; when absent,
a present task record means the task is still pending, and an absent
one means the identifier was never submitted. -/
def fetchResult (σ : BrokerSt) (id : Nat) : FetchOutcome :=
  match σ.results id with
  | some out => FetchOutcome.result out
  | none =>
    match σ.tasks id with
    | some _ => FetchOutcome.pending
    | none => FetchOutcome.notFound

/-- Modelled from the spec and the Task Creation Flow of part_000
(missing gateway and agent implementations): one step of the broker
protocol.  submit is two store operations in program order, writing the
fresh task record first (writeRecord) and only then pushing the
identifier onto the work queue (pushId) — so a pushId step only ever
fires for an identifier whose record write already happened.  takeTask
is the consumer pop: it removes the queue head and marks the record
in-progress (records are immutable once terminal, so the pop step only
mutates a non-terminal record).  completeStep and failStep are the
result publications defined above. -/
inductive BStep : BrokerSt → BrokerSt → Prop
  | writeRecord (σ : BrokerSt) (id : Nat) (payload : String)
      (hfresh : σ.tasks id = none) :
      BStep σ { σ with tasks := upd σ.tasks id ⟨payload, TaskStatus.queued⟩ }
  | pushId (σ : BrokerSt) (id : Nat) (hwritten : σ.tasks id ≠ none) :
      BStep σ { σ with queue := σ.queue ++ [id] }
  | takeTask (σ : BrokerSt) (id : Nat) (rest : List Nat) (r : TaskRec)
      (hq : σ.queue = id :: rest) (hrec : σ.tasks id = some r)
      (hnt : r.status.isTerminal = false) :
      BStep σ { σ with queue := rest,
                       tasks := upd σ.tasks id ⟨r.payload, TaskStatus.inProgress⟩ }
  | completeStep (σ σ2 : BrokerSt) (id : Nat) (out : String)
      (h : complete σ id out = Except.ok σ2) : BStep σ σ2
  | failStep (σ σ2 : BrokerSt) (id : Nat) (errDetail : String)
      (h : failTask σ id errDetail = Except.ok σ2) : BStep σ σ2

/-- The initial broker state: no records, empty queue. -/
def initSt : BrokerSt := ⟨fun _ => none, fun _ => none, []⟩

/-- Reachability of broker states from the initial state along protocol
steps. -/
def Reach (σ : BrokerSt) : Prop := Relation.ReflTransGen BStep initSt σ

/-- Invariant: every identifier in the work queue has a task record. -/
def QueueInv (σ : BrokerSt) : Prop := ∀ id ∈ σ.queue, σ.tasks id ≠ none

/-- Invariant: a result record exists exactly when the task record
exists with a terminal status. -/
def ResultInv (σ : BrokerSt) : Prop :=
  ∀ id, (σ.results id).isSome = true ↔
    ∃ r, σ.tasks id = some r ∧ r.status.isTerminal = true

theorem queueInv_step {σ σ2 : BrokerSt} (hs : BStep σ σ2) (hI : QueueInv σ) :
    QueueInv σ2 := by
  cases hs with
  | writeRecord id payload hfresh =>
    intro id2 hmem
    by_cases h2 : id2 = id
    · subst h2; simp [upd_same]
    · show upd σ.tasks id _ id2 ≠ none
      rw [upd_other _ _ _ _ h2]; exact hI id2 hmem
  | pushId id hwritten =>
    intro id2 hmem
    simp only [List.mem_append, List.mem_singleton] at hmem
    rcases hmem with hmem | rfl
    · exact hI id2 hmem
    · exact hwritten
  | takeTask id rest r hq hrec hnt =>
    intro id2 hmem
    by_cases h2 : id2 = id
    · subst h2; simp [upd_same]
    · show upd σ.tasks id _ id2 ≠ none
      rw [upd_other _ _ _ _ h2]
      exact hI id2 (by rw [hq]; exact List.mem_cons_of_mem _ hmem)
  | completeStep σ2 id out h =>
    unfold complete at h
    split at h
    next => cases h
    next r hrec =>
      split at h
      next => cases h
      next ht =>
        cases h
        intro id2 hmem
        by_cases h2 : id2 = id
        · subst h2; simp [upd_same]
        · show upd σ.tasks id _ id2 ≠ none
          rw [upd_other _ _ _ _ h2]; exact hI id2 hmem
  | failStep σ2 id errDetail h =>
    unfold failTask at h
    split at h
    next => cases h
    next r hrec =>
      split at h
      next => cases h
      next ht =>
        cases h
        intro id2 hmem
        by_cases h2 : id2 = id
        · subst h2; simp [upd_same]
        · show upd σ.tasks id _ id2 ≠ none
          rw [upd_other _ _ _ _ h2]; exact hI id2 hmem

theorem queueInv_reach {σ : BrokerSt} (h : Reach σ) : QueueInv σ := by
  unfold Reach at h
  induction h with
  | refl => intro id hmem; cases hmem
  | tail _ hstep ih => exact queueInv_step hstep ih

/-- Claim C4: the producer writes the task record before pushing the
identifier (the pushId step fires only after the writeRecord for that
identifier), and consequently in every reachable broker state every
identifier observed in the work queue has its task record present. -/
theorem queued_id_has_record (σ : BrokerSt) (h : Reach σ) :
    ∀ id ∈ σ.queue, σ.tasks id ≠ none :=
  queueInv_reach h

/-- State after the record write of a demonstration submit. -/
def demoWritten : BrokerSt :=
  { initSt with tasks := upd initSt.tasks 0 ⟨"p", TaskStatus.queued⟩ }

/-- State after the queue push of the demonstration submit. -/
def demoPushed : BrokerSt := { demoWritten with queue := demoWritten.queue ++ [0] }

theorem queued_id_has_record_witness :
    (0 : Nat) ∈ demoPushed.queue ∧ demoPushed.tasks 0 ≠ none :=
  ⟨by simp [demoPushed, demoWritten, initSt],
    queued_id_has_record demoPushed
      (Relation.ReflTransGen.tail
        (Relation.ReflTransGen.single (BStep.writeRecord initSt 0 "p" rfl))
        (BStep.pushId demoWritten 0 (by simp [demoWritten, initSt, upd])))
      0 (by simp [demoPushed, demoWritten, initSt])⟩

theorem resultInv_step {σ σ2 : BrokerSt} (hs : BStep σ σ2) (hI : ResultInv σ) :
    ResultInv σ2 := by
  cases hs with
  | writeRecord id payload hfresh =>
    intro id2
    by_cases h2 : id2 = id
    · subst h2
      show (σ.results id2).isSome = true ↔ _
      rw [hI id2]
      constructor
      · rintro ⟨r, hr, _⟩; rw [hfresh] at hr; cases hr
      · rintro ⟨r, hr, hterm⟩
        simp only [upd_same] at hr
        cases hr; cases hterm
    · show (σ.results id2).isSome = true ↔
        ∃ r, upd σ.tasks id ⟨payload, TaskStatus.queued⟩ id2 = some r ∧
          r.status.isTerminal = true
      rw [upd_other _ _ _ _ h2]; exact hI id2
  | pushId id hwritten => exact hI
  | takeTask id rest r hq hrec hnt =>
    intro id2
    by_cases h2 : id2 = id
    · subst h2
      show (σ.results id2).isSome = true ↔ _
      rw [hI id2]
      constructor
      · rintro ⟨r2, hr2, hterm⟩
        rw [hrec] at hr2; cases hr2
        rw [hterm] at hnt; cases hnt
      · rintro ⟨r2, hr2, hterm⟩
        simp only [upd_same] at hr2
        cases hr2; cases hterm
    · show (σ.results id2).isSome = true ↔
        ∃ r2, upd σ.tasks id ⟨r.payload, TaskStatus.inProgress⟩ id2 = some r2 ∧
          r2.status.isTerminal = true
      rw [upd_other _ _ _ _ h2]; exact hI id2
  | completeStep σ2 id out h =>
    unfold complete at h
    split at h
    next => cases h
    next r hrec =>
      split at h
      next => cases h
      next ht =>
        cases h
        intro id2
        by_cases h2 : id2 = id
        · subst h2
          show (upd σ.results id2 out id2).isSome = true ↔ _
          rw [upd_same]
          simp only [Option.isSome_some, true_iff]
          exact ⟨⟨r.payload, TaskStatus.completed⟩, upd_same _ _ _, rfl⟩
        · show (upd σ.results id out id2).isSome = true ↔
            ∃ r2, upd σ.tasks id ⟨r.payload, TaskStatus.completed⟩ id2 = some r2 ∧
              r2.status.isTerminal = true
          rw [upd_other _ _ _ _ h2, upd_other _ _ _ _ h2]; exact hI id2
  | failStep σ2 id errDetail h =>
    unfold failTask at h
    split at h
    next => cases h
    next r hrec =>
      split at h
      next => cases h
      next ht =>
        cases h
        intro id2
        by_cases h2 : id2 = id
        · subst h2
          show (upd σ.results id2 errDetail id2).isSome = true ↔ _
          rw [upd_same]
          simp only [Option.isSome_some, true_iff]
          exact ⟨⟨r.payload, TaskStatus.failed⟩, upd_same _ _ _, rfl⟩
        · show (upd σ.results id errDetail id2).isSome = true ↔
            ∃ r2, upd σ.tasks id ⟨r.payload, TaskStatus.failed⟩ id2 = some r2 ∧
              r2.status.isTerminal = true
          rw [upd_other _ _ _ _ h2, upd_other _ _ _ _ h2]; exact hI id2

theorem resultInv_reach {σ : BrokerSt} (h : Reach σ) : ResultInv σ := by
  unfold Reach at h
  induction h with
  | refl =>
    intro id
    constructor
    · intro hc; cases hc
    · rintro ⟨r, hr, _⟩; cases hr
  | tail _ hstep ih => exact resultInv_step hstep ih

theorem results_none_of_not_terminal {σ : BrokerSt} (hI : ResultInv σ) (id : Nat)
    (h : ∀ r, σ.tasks id = some r → r.status.isTerminal = false) :
    σ.results id = none := by
  cases hres : σ.results id with
  | none => rfl
  | some out =>
    have : (σ.results id).isSome = true := by rw [hres]; rfl
    rcases (hI id).mp this with ⟨r, hr, hterm⟩
    rw [h r hr] at hterm; cases hterm

/-- Claim C6: in every reachable broker state, fetchResult returns
NotFound on a never-submitted identifier, Pending (a non-error) on a
submitted but non-terminal one, and after a successful complete returns
exactly the output passed to complete; and a result record exists if
and only if the task reached a terminal status. -/
theorem fetchResult_spec (σ : BrokerSt) (h : Reach σ) :
    (∀ id, σ.tasks id = none → fetchResult σ id = FetchOutcome.notFound) ∧
    (∀ id r, σ.tasks id = some r → r.status.isTerminal = false →
      fetchResult σ id = FetchOutcome.pending) ∧
    (∀ id out σ2, complete σ id out = Except.ok σ2 →
      fetchResult σ2 id = FetchOutcome.result out) ∧
    (∀ id, (σ.results id).isSome = true ↔
      ∃ r, σ.tasks id = some r ∧ r.status.isTerminal = true) := by
  have hI : ResultInv σ := resultInv_reach h
  refine ⟨?_, ?_, ?_, hI⟩
  · intro id htask
    have hres : σ.results id = none :=
      results_none_of_not_terminal hI id (by intro r hr; rw [htask] at hr; cases hr)
    unfold fetchResult
    rw [hres, htask]
  · intro id r htask hterm
    have hres : σ.results id = none :=
      results_none_of_not_terminal hI id
        (by intro r2 hr2; rw [htask] at hr2; cases hr2; exact hterm)
    unfold fetchResult
    rw [hres, htask]
  · intro id out σ2 hc
    unfold complete at hc
    split at hc
    next => cases hc
    next r hrec =>
      split at hc
      next => cases hc
      next ht =>
        cases hc
        unfold fetchResult
        show (match upd σ.results id out id with
          | some out2 => FetchOutcome.result out2
          | none => _) = FetchOutcome.result out
        rw [upd_same]

theorem fetchResult_spec_witness :
    (∀ id, initSt.tasks id = none → fetchResult initSt id = FetchOutcome.notFound) ∧
    (∀ id r, initSt.tasks id = some r → r.status.isTerminal = false →
      fetchResult initSt id = FetchOutcome.pending) ∧
    (∀ id out σ2, complete initSt id out = Except.ok σ2 →
      fetchResult σ2 id = FetchOutcome.result out) ∧
    (∀ id, (initSt.results id).isSome = true ↔
      ∃ r, initSt.tasks id = some r ∧ r.status.isTerminal = true) :=
  fetchResult_spec initSt Relation.ReflTransGen.refl

/-- Claim C5: once a first complete (or fail) has moved a task to a
terminal state, any second complete or fail on it fails with
AlreadyTerminal without touching the stored result, and fetchResult
returns exactly the first call's output (or error detail). -/
theorem complete_idempotency_guard :
    (∀ (σ : BrokerSt) (id : Nat) (out : String) (σ2 : BrokerSt),
      complete σ id out = Except.ok σ2 →
      (∀ out2, complete σ2 id out2 = Except.error BrokerErr.alreadyTerminal) ∧
      (∀ e, failTask σ2 id e = Except.error BrokerErr.alreadyTerminal) ∧
      fetchResult σ2 id = FetchOutcome.result out) ∧
    (∀ (σ : BrokerSt) (id : Nat) (e : String) (σ2 : BrokerSt),
      failTask σ id e = Except.ok σ2 →
      (∀ out2, complete σ2 id out2 = Except.error BrokerErr.alreadyTerminal) ∧
      (∀ e2, failTask σ2 id e2 = Except.error BrokerErr.alreadyTerminal) ∧
      fetchResult σ2 id = FetchOutcome.result e) := by
  constructor
  · intro σ id out σ2 h
    unfold complete at h
    split at h
    next => cases h
    next r hrec =>
      split at h
      next => cases h
      next ht =>
        cases h
        refine ⟨?_, ?_, ?_⟩
        · intro out2
          unfold complete
          show (match upd σ.tasks id ⟨r.payload, TaskStatus.completed⟩ id with
            | none => Except.error BrokerErr.notFound
            | some r2 => if r2.status.isTerminal = true then _ else _) = _
          rw [upd_same]
          rfl
        · intro e
          unfold failTask
          show (match upd σ.tasks id ⟨r.payload, TaskStatus.completed⟩ id with
            | none => Except.error BrokerErr.notFound
            | some r2 => if r2.status.isTerminal = true then _ else _) = _
          rw [upd_same]
          rfl
        · unfold fetchResult
          show (match upd σ.results id out id with
            | some out2 => FetchOutcome.result out2
            | none => _) = _
          rw [upd_same]
  · intro σ id e σ2 h
    unfold failTask at h
    split at h
    next => cases h
    next r hrec =>
      split at h
      next => cases h
      next ht =>
        cases h
        refine ⟨?_, ?_, ?_⟩
        · intro out2
          unfold complete
          show (match upd σ.tasks id ⟨r.payload, TaskStatus.failed⟩ id with
            | none => Except.error BrokerErr.notFound
            | some r2 => if r2.status.isTerminal = true then _ else _) = _
          rw [upd_same]
          rfl
        · intro e2
          unfold failTask
          show (match upd σ.tasks id ⟨r.payload, TaskStatus.failed⟩ id with
            | none => Except.error BrokerErr.notFound
            | some r2 => if r2.status.isTerminal = true then _ else _) = _
          rw [upd_same]
          rfl
        · unfold fetchResult
          show (match upd σ.results id e id with
            | some out2 => FetchOutcome.result out2
            | none => _) = _
          rw [upd_same]

/-- A broker state holding one in-progress task. -/
def demoTaken : BrokerSt :=
  { initSt with tasks := upd initSt.tasks 0 ⟨"p", TaskStatus.inProgress⟩ }

/-- The state after completing that task with output out. -/
def demoDone : BrokerSt :=
  { demoTaken with tasks := upd demoTaken.tasks 0 ⟨"p", TaskStatus.completed⟩,
                   results := upd demoTaken.results 0 "out" }

theorem complete_idempotency_guard_witness :
    complete demoTaken 0 "out" = Except.ok demoDone ∧
    ((∀ out2, complete demoDone 0 out2 = Except.error BrokerErr.alreadyTerminal) ∧
      (∀ e, failTask demoDone 0 e = Except.error BrokerErr.alreadyTerminal) ∧
      fetchResult demoDone 0 = FetchOutcome.result "out") :=
  ⟨rfl, complete_idempotency_guard.1 demoTaken 0 "out" demoDone rfl⟩

/-- Modelled from the spec: an interleaved execution of N consumers
concurrently popping one FIFO queue (missing store implementation; the
store guarantees that a pop removes an entry exclusively).  The schedule
lists, in global time order, which consumer performs each pop; a pop of
an empty queue delivers nothing (it times out).  The output is the
global delivery sequence of (consumer, entry) events. -/
def runQueue {n : Nat} : List (Fin n) → List Nat → List (Fin n × Nat)
  | [], _ => []
  | _ :: cs, [] => runQueue cs []
  | c :: cs, e :: q => (c, e) :: runQueue cs q

/-- The entries received by consumer c, in the order it popped them. -/
def recvOf {n : Nat} (sched : List (Fin n)) (q : List Nat) (c : Fin n) : List Nat :=
  ((runQueue sched q).filter (fun d => decide (d.1 = c))).map Prod.snd

theorem runQueue_nil {n : Nat} (sched : List (Fin n)) : runQueue sched [] = [] := by
  induction sched with
  | nil => rfl
  | cons c cs ih => simp [runQueue, ih]

theorem runQueue_map_snd {n : Nat} (sched : List (Fin n)) (q : List Nat)
    (hlen : q.length ≤ sched.length) : (runQueue sched q).map Prod.snd = q := by
  induction sched generalizing q with
  | nil =>
    cases q with
    | nil => rfl
    | cons e q2 => simp at hlen
  | cons c cs ih =>
    cases q with
    | nil => simp [runQueue_nil]
    | cons e q2 =>
      simp only [runQueue, List.map_cons, List.cons.injEq, true_and]
      exact ih q2 (by simpa using hlen)

theorem mem_recvOf {n : Nat} (sched : List (Fin n)) (q : List Nat) (c : Fin n)
    (e : Nat) : e ∈ recvOf sched q c ↔ ∃ d ∈ runQueue sched q, d.1 = c ∧ d.2 = e := by
  simp only [recvOf, List.mem_map, List.mem_filter, decide_eq_true_eq]
  constructor
  · rintro ⟨d, ⟨hd, hc⟩, he⟩; exact ⟨d, hd, hc, he⟩
  · rintro ⟨d, hd, hc, he⟩; exact ⟨d, ⟨hd, hc⟩, he⟩

/-- Claim C1: with N consumers concurrently popping a queue of M unique
entries, under every interleaving with at least M pops: the global
delivery sequence is exactly the queue content in FIFO order; every
entry is delivered by exactly one delivery event; each consumer receives
only original entries; every entry reaches some consumer; and no entry
reaches two distinct consumers. -/
theorem queue_fifo_exactly_once (n : Nat) (hn : 0 < n) (q : List Nat)
    (sched : List (Fin n)) (hnd : q.Nodup) (hlen : q.length ≤ sched.length) :
    ((runQueue sched q).map Prod.snd = q) ∧
    (∀ e ∈ q, ∃! d : Fin n × Nat, d ∈ runQueue sched q ∧ d.2 = e) ∧
    (∀ c : Fin n, ∀ e ∈ recvOf sched q c, e ∈ q) ∧
    (∀ e ∈ q, ∃ c : Fin n, e ∈ recvOf sched q c) ∧
    (∀ e ∈ q, ∀ c c2 : Fin n, e ∈ recvOf sched q c → e ∈ recvOf sched q c2 →
      c = c2) := by
  have hmap : (runQueue sched q).map Prod.snd = q := runQueue_map_snd sched q hlen
  have hmapnd : ((runQueue sched q).map Prod.snd).Nodup := by rw [hmap]; exact hnd
  have hinj := List.inj_on_of_nodup_map hmapnd
  have huniq : ∀ e ∈ q, ∃! d : Fin n × Nat, d ∈ runQueue sched q ∧ d.2 = e := by
    intro e he
    rw [← hmap] at he
    rcases List.mem_map.mp he with ⟨d, hd, hsnd⟩
    refine ⟨d, ⟨hd, hsnd⟩, ?_⟩
    rintro d2 ⟨hd2, hsnd2⟩
    exact hinj hd2 hd (by rw [hsnd2, hsnd])
  refine ⟨hmap, huniq, ?_, ?_, ?_⟩
  · intro c e he
    rcases (mem_recvOf sched q c e).mp he with ⟨d, hd, _, hsnd⟩
    rw [← hmap]
    exact List.mem_map.mpr ⟨d, hd, hsnd⟩
  · intro e he
    rw [← hmap] at he
    rcases List.mem_map.mp he with ⟨d, hd, hsnd⟩
    exact ⟨d.1, (mem_recvOf sched q d.1 e).mpr ⟨d, hd, rfl, hsnd⟩⟩
  · intro e he c c2 hc hc2
    rcases (mem_recvOf sched q c e).mp hc with ⟨d, hd, hdc, hds⟩
    rcases (mem_recvOf sched q c2 e).mp hc2 with ⟨d2, hd2, hdc2, hds2⟩
    rcases huniq e he with ⟨d0, _, hun⟩
    have h1 : d = d0 := hun d ⟨hd, hds⟩
    have h2 : d2 = d0 := hun d2 ⟨hd2, hds2⟩
    rw [← hdc, ← hdc2, h1, h2]

theorem queue_fifo_exactly_once_witness :
    (0 < 2) ∧ ([10, 11].Nodup) ∧
    ([10, 11].length ≤ [(0 : Fin 2), 1, 0].length) ∧
    (((runQueue [(0 : Fin 2), 1, 0] [10, 11]).map Prod.snd = [10, 11]) ∧
      (∀ e ∈ [10, 11],
        ∃! d : Fin 2 × Nat, d ∈ runQueue [(0 : Fin 2), 1, 0] [10, 11] ∧ d.2 = e) ∧
      (∀ c : Fin 2, ∀ e ∈ recvOf [(0 : Fin 2), 1, 0] [10, 11] c, e ∈ [10, 11]) ∧
      (∀ e ∈ [10, 11], ∃ c : Fin 2, e ∈ recvOf [(0 : Fin 2), 1, 0] [10, 11] c) ∧
      (∀ e ∈ [10, 11], ∀ c c2 : Fin 2,
        e ∈ recvOf [(0 : Fin 2), 1, 0] [10, 11] c →
        e ∈ recvOf [(0 : Fin 2), 1, 0] [10, 11] c2 → c = c2)) :=
  ⟨by decide, by decide, by decide,
    queue_fifo_exactly_once 2 (by decide) [10, 11] [(0 : Fin 2), 1, 0]
      (by decide) (by decide)⟩

/-- A probe result: tri-state status, human-readable message and the
elapsed-time measurement in milliseconds (the response_time_ms field of
the frontend HealthCheckResult type in part_003). -/
structure ProbeRes where
  status : Status
  message : String
  elapsedMs : Nat
deriving DecidableEq, Repr

/-- Modelled from the spec: the raw behaviour of a probe target
(missing probe implementations).  A target either responds after some
measured elapsed time, or never responds. -/
inductive ProbeBehavior
  | responds (r : ProbeRes)
  | hangs

/-- Modelled from the spec: check(timeout) (missing probe
implementations).  The probe races the target against its timeout: a
response within the timeout is returned as measured; otherwise the
timeout fires and the probe reports unhealthy with a Timeout message
instead of blocking past its deadline. -/
def check (timeoutMs : Nat) : ProbeBehavior → ProbeRes
  | .responds r =>
    if r.elapsedMs ≤ timeoutMs then r
    else ⟨Status.unhealthy, "Timeout", timeoutMs⟩
  | .hangs => ⟨Status.unhealthy, "Timeout", timeoutMs⟩

/-- The result the aggregator synthesizes for a probe that neither
completed nor timed out cleanly by the overall deadline. -/
def synthesized (deadlineMs : Nat) : ProbeRes :=
  ⟨Status.unhealthy, "probe did not respond", deadlineMs⟩

/-- Modelled from the spec: the collection phase of an aggregation
cycle (missing aggregator implementation).  Input: each registered probe
name together with the result its invocation produced by the overall
deadline, or none when the invocation did not resolve at all; output:
the report, with a synthesized unhealthy result standing in for every
unresolved probe. -/
def collect (deadlineMs : Nat) (probes : List (String × Option ProbeRes)) :
    List (String × ProbeRes) :=
  probes.map (fun nr => (nr.1, nr.2.getD (synthesized deadlineMs)))

/-- The overall status of a report: the rollup of the member
statuses. -/
def overall (report : List (String × ProbeRes)) : Status :=
  rollup (report.map (fun nr => nr.2.status))

/-- Claim C7: a probe invocation always yields a result whose elapsed
time is within its timeout (it never blocks past the timeout); when the
target exceeds the timeout or never responds, the result is unhealthy
with a Timeout message; the aggregator report contains every registered
probe; a probe that did not resolve appears as a synthesized unhealthy
result with message "probe did not respond"; and the overall rollup is
unhealthy whenever such a probe exists. -/
theorem probe_timeout_spec :
    (∀ (t : Nat) (b : ProbeBehavior), (check t b).elapsedMs ≤ t) ∧
    (∀ (t : Nat) (r : ProbeRes), t < r.elapsedMs →
      check t (ProbeBehavior.responds r) = ⟨Status.unhealthy, "Timeout", t⟩) ∧
    (∀ t : Nat, check t ProbeBehavior.hangs = ⟨Status.unhealthy, "Timeout", t⟩) ∧
    (∀ (d : Nat) (probes : List (String × Option ProbeRes)),
      (collect d probes).map Prod.fst = probes.map Prod.fst) ∧
    (∀ (d : Nat) (probes : List (String × Option ProbeRes)) (name : String),
      (name, (none : Option ProbeRes)) ∈ probes →
      (name, synthesized d) ∈ collect d probes ∧
      (synthesized d).status = Status.unhealthy ∧
      (synthesized d).message = "probe did not respond") ∧
    (∀ (d : Nat) (probes : List (String × Option ProbeRes)) (name : String),
      (name, (none : Option ProbeRes)) ∈ probes →
      overall (collect d probes) = Status.unhealthy) := by
  refine ⟨?_, ?_, ?_, ?_, ?_, ?_⟩
  · intro t b
    cases b with
    | responds r =>
      by_cases hle : r.elapsedMs ≤ t
      · simpa [check, hle]
      · simp [check, hle]
    | hangs => simp [check]
  · intro t r hlt
    have : ¬r.elapsedMs ≤ t := not_le.mpr hlt
    simp [check, this]
  · intro t; rfl
  · intro d probes
    simp [collect]
  · intro d probes name hmem
    refine ⟨?_, rfl, rfl⟩
    exact List.mem_map.mpr ⟨(name, none), hmem, rfl⟩
  · intro d probes name hmem
    apply rollup_unhealthy_of_mem
    refine List.mem_map.mpr ⟨(name, synthesized d), ?_, rfl⟩
    exact List.mem_map.mpr ⟨(name, none), hmem, rfl⟩

theorem probe_timeout_spec_witness :
    ((check 50 (ProbeBehavior.responds ⟨Status.healthy, "ok", 80⟩)).elapsedMs ≤ 50) ∧
    (50 < 80 ∧ check 50 (ProbeBehavior.responds ⟨Status.healthy, "ok", 80⟩) =
      ⟨Status.unhealthy, "Timeout", 50⟩) ∧
    (check 50 ProbeBehavior.hangs = ⟨Status.unhealthy, "Timeout", 50⟩) ∧
    ((collect 100 [("agent", none), ("redis", some ⟨Status.healthy, "ok", 3⟩)]).map
        Prod.fst =
      [("agent", (none : Option ProbeRes)),
        ("redis", some ⟨Status.healthy, "ok", 3⟩)].map Prod.fst) ∧
    (("agent", (none : Option ProbeRes)) ∈
        [("agent", (none : Option ProbeRes)),
          ("redis", some ⟨Status.healthy, "ok", 3⟩)] ∧
      ("agent", synthesized 100) ∈
        collect 100 [("agent", none), ("redis", some ⟨Status.healthy, "ok", 3⟩)] ∧
      (synthesized 100).status = Status.unhealthy ∧
      (synthesized 100).message = "probe did not respond") ∧
    overall (collect 100 [("agent", none), ("redis", some ⟨Status.healthy, "ok", 3⟩)]) =
      Status.unhealthy :=
  ⟨probe_timeout_spec.1 50 (ProbeBehavior.responds ⟨Status.healthy, "ok", 80⟩),
    ⟨by decide, probe_timeout_spec.2.1 50 ⟨Status.healthy, "ok", 80⟩ (by decide)⟩,
    probe_timeout_spec.2.2.1 50,
    probe_timeout_spec.2.2.2.1 100
      [("agent", none), ("redis", some ⟨Status.healthy, "ok", 3⟩)],
    ⟨by simp,
      probe_timeout_spec.2.2.2.2.1 100
        [("agent", none), ("redis", some ⟨Status.healthy, "ok", 3⟩)] "agent"
        (by simp)⟩,
    probe_timeout_spec.2.2.2.2.2 100
      [("agent", none), ("redis", some ⟨Status.healthy, "ok", 3⟩)] "agent"
      (by simp)⟩

end UltaClaw
